import Mathlib

/-!
Shallow embedding of the chunked-upload core of `burak-erp-upload-api`
(`src/helpers/FileUploadHelper.ts` and the chunk-upload controller), together
with theorems settling the specification claims about it.

Modelling conventions:
* byte buffers are `List Nat`;
* the metadata store (`Upload` collection) is a list of records, `findOne`
  is first-match search;
* a staging directory is an association list from chunk offset to bytes:
  the only files the code ever writes there are named `chunk_${offset}`
  (`processChunkUploads`), and `combineChunks` filters on the `chunk_`
  prefix and parses the numeric suffix back, so keying by the offset is
  exact;
* the final-artifact directory is an association list from file name to
  bytes;
* `fs.writeFileSync` on an existing path truncates and rewrites it in
  place (`setEntry`), on a fresh path it creates the file; it throws
  `ENOENT` when the containing directory does not exist.
-/

abbrev Bytes := List Nat

/-- A persisted `Upload` document (the fields the chunk core reads/writes). -/
structure UploadRec where
  file_name : String
  file_extension : String
  file_path : String
  file_url : String
deriving Repr, DecidableEq

/-- Association-list lookup: first entry with the given key. -/
def getEntry {κ α : Type} [DecidableEq κ] (m : List (κ × α)) (k : κ) : Option α :=
  match m with
  | [] => none
  | e :: rest => if e.1 = k then some e.2 else getEntry rest k

/-- Association-list write with overwrite-in-place semantics
(`fs.writeFileSync`): replace the first entry with this key, or append a
fresh entry when the key is absent. -/
def setEntry {κ α : Type} [DecidableEq κ] (m : List (κ × α)) (k : κ) (v : α) : List (κ × α) :=
  match m with
  | [] => [(k, v)]
  | e :: rest => if e.1 = k then (k, v) :: rest else e :: setEntry rest k v

/-- Association-list delete (recursive `fs.rm` of a staging directory). -/
def eraseEntry {κ α : Type} [DecidableEq κ] (m : List (κ × α)) (k : κ) : List (κ × α) :=
  m.filter (fun e => decide (¬ e.1 = k))

/-- The file system as the chunk core sees it: staging directories under the
temp root (one per storage name, holding offset-keyed chunk files) and the
final upload directory (artifact name to bytes). -/
structure FileSys where
  tempDirs : List (String × List (Nat × Bytes))
  uploadFiles : List (String × Bytes)
deriving Repr, DecidableEq

/-- Database plus file system: everything `processChunkUploads` and
`combineChunks` touch. -/
structure SysState where
  db : List UploadRec
  fs : FileSys
deriving Repr, DecidableEq

/-- Errors the embedded code can raise, plus the spec's taxonomy entries
(`outOfRange`, `invalidState`) so claims about them are statable. The code
itself never constructs the latter two. -/
inductive UploadError where
  | recordNotFound
  | dirMissing
  | ioError
  | outOfRange
  | invalidState
deriving Repr, DecidableEq

/-- Insertion step for the ascending-offset sort. -/
def insertChunk (c : Nat × Bytes) : List (Nat × Bytes) → List (Nat × Bytes)
  | [] => [c]
  | d :: rest => if c.1 ≤ d.1 then c :: d :: rest else d :: insertChunk c rest

/-- `combineChunks` sorts the staged chunk files ascending by the offset
parsed from their names (`.sort((a, b) => aNum - bNum)`). -/
def sortChunks : List (Nat × Bytes) → List (Nat × Bytes)
  | [] => []
  | c :: rest => insertChunk c (sortChunks rest)

/-- The bytes `combineChunks` streams into the destination: concatenation of
the staged chunks in ascending offset order. No coverage check of any kind
is performed before concatenating. -/
def combineResult (dir : List (Nat × Bytes)) : Bytes :=
  ((sortChunks dir).map Prod.snd).flatten

/-- `upload.save()` after `upload.file_url = ...`: update the url of the
record(s) with this storage name. -/
def updateUrl (db : List UploadRec) (fname url : String) : List UploadRec :=
  db.map (fun u => if u.file_name = fname then { u with file_url := url } else u)

/-- `combineChunks(chunkDir, uniqueId, parentDir)` from
`src/helpers/FileUploadHelper.ts`:
look the record up by `file_name`, stream every staged chunk in ascending
offset order directly into `UPLOAD_DIR/{file_name}.{file_extension}`
(no temporary path, no rename), delete each chunk after streaming, set
`file_url`, remove the staging directory. `readdirSync` on an absent
staging directory throws (`ioError`); the best-effort `rmdir` of the parent
is ignored. -/
def combineChunks (st : SysState) (uniqueId : String) : Except UploadError SysState :=
  match st.db.find? (fun u => decide (u.file_name = uniqueId)) with
  | none => .error .recordNotFound
  | some up =>
    let finalFileName := up.file_name ++ "." ++ up.file_extension
    match getEntry st.fs.tempDirs uniqueId with
    | none => .error .ioError
    | some dir =>
      .ok { db := updateUrl st.db uniqueId ("/uploads/" ++ finalFileName),
            fs := { tempDirs := eraseEntry st.fs.tempDirs uniqueId,
                    uploadFiles := setEntry st.fs.uploadFiles finalFileName (combineResult dir) } }

/-- `processChunkUploads(req, id)` from `src/helpers/FileUploadHelper.ts`,
with `offset = parseInt(headers['upload-offset'])`,
`len = parseInt(headers['upload-length'])` and `body = req.body`:
find the record by `file_path = id`; write the body to
`chunk_${offset}` in the record's staging directory; if
`offset + body.length >= len`, invoke `combineChunks`.
The guard `if (!fs.exists(chunkDir)) fs.mkdir(...)` never runs its branch
(`fs.exists` without a callback returns a promise, which is truthy), so a
missing staging directory makes `fs.writeFileSync` throw (`dirMissing`).
No offset/length validation and no session-status check of any kind is
performed. -/
def processChunkUploads (st : SysState) (id : String) (offset len : Nat)
    (body : Bytes) : Except UploadError SysState :=
  match st.db.find? (fun u => decide (u.file_path = id)) with
  | none => .error .recordNotFound
  | some up =>
    let folderName := up.file_name
    match getEntry st.fs.tempDirs folderName with
    | none => .error .dirMissing
    | some dir =>
      let dir' := setEntry dir offset body
      let st' : SysState :=
        { st with fs := { st.fs with tempDirs := setEntry st.fs.tempDirs folderName dir' } }
      if len ≤ offset + body.length then
        combineChunks st' folderName
      else
        .ok st'

/-- The sixteen characters `Buffer.toString('hex')` can emit (lowercase). -/
def hexChars : List Char := "0123456789abcdef".toList

/-- Hex digit for a value below 16. -/
def hexDigit (n : Nat) : Char := hexChars.getD n '0'

/-- One byte, rendered as its two lowercase hex digits. -/
def byteToHex (b : Fin 256) : List Char := [hexDigit (b.val / 16), hexDigit (b.val % 16)]

/-- `crypto.randomBytes(n).toString('hex')`: the drawn bytes, hex-encoded. -/
def randomBytesHex (bs : List (Fin 256)) : List Char := (bs.map byteToHex).flatten

/-- Outcome of one `fs.mkdir(folderPath)` call: success, the directory
already exists (`EEXIST`), or some other error. -/
inductive MkdirOutcome where
  | ok
  | eexist
  | otherErr (code : Nat)
deriving Repr, DecidableEq

/-- Result of `startChunkProcess`: the reserved folder name, the
`Failed to create unique directory after multiple attempts` error, or a
propagated non-`EEXIST` error. -/
inductive StartResult where
  | success (folderName : List Char)
  | resourceExhausted
  | propagated (code : Nat)
deriving Repr, DecidableEq

/-- `const maxAttempts = 5` in `startChunkProcess`. -/
def maxAttempts : Nat := 5

/-- The `do { ... } while (attempt < maxAttempts)` loop of
`startChunkProcess`: draw the next random name, hex-encode it, try to make
the directory; return the name on success, retry on `EEXIST` while
attempts remain, and rethrow any other error immediately. `randoms i` is
the `i`-th draw of `crypto.randomBytes(10)` and `mkdir` the file system's
answer for a folder name; `fuel` is the number of attempts left. -/
def startChunkLoop (randoms : Nat → List (Fin 256)) (mkdir : List Char → MkdirOutcome) :
    Nat → Nat → StartResult
  | _, 0 => .resourceExhausted
  | i, fuel + 1 =>
    let folderName := randomBytesHex (randoms i)
    match mkdir folderName with
    | .ok => .success folderName
    | .otherErr code => .propagated code
    | .eexist => startChunkLoop randoms mkdir (i + 1) fuel

/-- `startChunkProcess` from `src/helpers/FileUploadHelper.ts`: up to
`maxAttempts = 5` attempts starting from the first draw. -/
def startChunkProcess (randoms : Nat → List (Fin 256))
    (mkdir : List Char → MkdirOutcome) : StartResult :=
  startChunkLoop randoms mkdir 0 maxAttempts

/-- The `offset` field of the controller's success response
(`src/controllers/imageUploadController.ts`, `storeChunk`):
`offset + (req.file?.buffer?.length || 0)`. `fileBuffer` is
`req.file?.buffer`: `some` bytes when the chunk arrived as a multipart
file, `none` when it arrived as the raw request body. -/
def storeChunkResponseOffset (offset : Nat) (fileBuffer : Option Bytes) : Nat :=
  offset + (match fileBuffer with
            | some b => b.length
            | none => 0)

/-! ### Concrete scenario states

A session as the creation controller (`store`) leaves it: a record whose
`file_path` is `{storageName}.{extension}`, whose `file_url` already points
under `/uploads`, and an empty staging directory reserved by
`startChunkProcess`. The payload bytes spell `HELLO`, `WORLD`, `ABCD`,
`EFGH`. -/

/-- Bytes of `"HELLO"`. -/
def helloBytes : Bytes := [72, 69, 76, 76, 79]

/-- Bytes of `"WORLD"`. -/
def worldBytes : Bytes := [87, 79, 82, 76, 68]

/-- Bytes of `"ABCD"`. -/
def abcdBytes : Bytes := [65, 66, 67, 68]

/-- Bytes of `"EFGH"`. -/
def efghBytes : Bytes := [69, 70, 71, 72]

/-- A freshly created session with storage name `aabb` and extension
`bin` (declared size 10 lives in the client's `upload-length` header, not
in the record). -/
def freshRec : UploadRec :=
  { file_name := "aabb", file_extension := "bin",
    file_path := "aabb.bin", file_url := "/uploads/aabb.bin" }

/-- State right after session creation: one record, an empty staging
directory, no artifacts. -/
def freshState : SysState :=
  { db := [freshRec], fs := { tempDirs := [("aabb", [])], uploadFiles := [] } }

/-- Deliver a list of `(offset, body)` chunks for one session in order,
each through `processChunkUploads`, stopping at the first error. -/
def ingestAll (st : SysState) (id : String) (len : Nat) :
    List (Nat × Bytes) → Except UploadError SysState
  | [] => .ok st
  | c :: rest =>
    match processChunkUploads st id c.1 len c.2 with
    | .error e => .error e
    | .ok st' => ingestAll st' id len rest

/-- A directory listing has no two entries with the same name/key. -/
@[reducible] def nodupKeys {κ α : Type} (m : List (κ × α)) : Prop := (m.map Prod.fst).Nodup

/-- How many entries of the listing carry the given key. -/
def countKey {κ α : Type} [DecidableEq κ] (m : List (κ × α)) (k : κ) : Nat :=
  (m.filter (fun e => decide (e.1 = k))).length

/-- Bytes of `"XXXXX"`. -/
def xxxxxBytes : Bytes := [88, 88, 88, 88, 88]

/-- `freshState` after a completion-triggering ingest of `WORLD` at
offset 5 (`upload-length` 10): the artifact holds only `WORLD` and the
staging directory is gone. -/
def worldOnlyState : SysState :=
  { db := [freshRec], fs := { tempDirs := [], uploadFiles := [("aabb.bin", worldBytes)] } }

/-- `freshState` after ingesting `ABCD` at offset 0 (no trigger yet). -/
def gapState1 : SysState :=
  { db := [freshRec],
    fs := { tempDirs := [("aabb", [(0, abcdBytes)])], uploadFiles := [] } }

/-- `gapState1` after ingesting `EFGH` at offset 6: bytes `[4, 6)` were
never delivered, yet reassembly ran and produced an 8-byte artifact. -/
def gapFinalState : SysState :=
  { db := [freshRec],
    fs := { tempDirs := [], uploadFiles := [("aabb.bin", abcdBytes ++ efghBytes)] } }

/-- A session whose staging directory holds the two gap chunks. -/
def gapStagedState : SysState :=
  { db := [freshRec],
    fs := { tempDirs := [("aabb", [(0, abcdBytes), (6, efghBytes)])], uploadFiles := [] } }

/-- `freshState` after ingesting 5 bytes at offset 20 against a declared
length of 10: accepted, and reassembly even ran on the lone chunk. -/
def overRangeState : SysState :=
  { db := [freshRec], fs := { tempDirs := [], uploadFiles := [("aabb.bin", xxxxxBytes)] } }

/-- A byte from a natural number (for concrete random draws). -/
def byteOf (i : Nat) : Fin 256 := ⟨i % 256, by omega⟩

/-- A deterministic stand-in for the sequence of `crypto.randomBytes(10)`
draws: the `i`-th draw is ten copies of byte `i`. -/
def randomsSeq (i : Nat) : List (Fin 256) := List.replicate 10 (byteOf i)

/-- A file system on which every `mkdir` hits an existing directory. -/
def mkdirAllCollide : List Char → MkdirOutcome := fun _ => .eexist

/-- A file system on which every `mkdir` succeeds. -/
def mkdirAllOk : List Char → MkdirOutcome := fun _ => .ok

/-- A file system colliding on the first two generated names and free on
the third. -/
def mkdirOkAtThird : List Char → MkdirOutcome :=
  fun n => if n = randomBytesHex (randomsSeq 2) then .ok else .eexist

/-- A file system failing with a non-`EEXIST` error (code 13) on the
second generated name and colliding before it. -/
def mkdirErrAtSecond : List Char → MkdirOutcome :=
  fun n => if n = randomBytesHex (randomsSeq 1) then .otherErr 13 else .eexist

/-! ### Association-list lemmas -/

theorem getEntry_setEntry_self {κ α : Type} [DecidableEq κ]
    (m : List (κ × α)) (k : κ) (v : α) : getEntry (setEntry m k v) k = some v := by
  induction m with
  | nil => simp [setEntry, getEntry]
  | cons e rest ih =>
    by_cases h : e.1 = k
    · simp [setEntry, getEntry, h]
    · simp [setEntry, getEntry, h, ih]

theorem getEntry_eraseEntry_self {κ α : Type} [DecidableEq κ]
    (m : List (κ × α)) (k : κ) : getEntry (eraseEntry m k) k = none := by
  induction m with
  | nil => simp [eraseEntry, getEntry]
  | cons e rest ih =>
    by_cases h : e.1 = k
    · simpa [eraseEntry, h] using ih
    · simpa [eraseEntry, getEntry, h] using ih

theorem getEntry_mem {κ α : Type} [DecidableEq κ]
    {m : List (κ × α)} {k : κ} {v : α} (h : getEntry m k = some v) : (k, v) ∈ m := by
  induction m with
  | nil => simp [getEntry] at h
  | cons e rest ih =>
    rcases e with ⟨k', v'⟩
    by_cases he : k' = k
    · simp [getEntry, he] at h
      subst he
      subst h
      exact List.mem_cons_self _ _
    · simp only [getEntry, he, if_neg, not_false_iff] at h
      exact .tail _ (ih h)

theorem mem_setEntry {κ α : Type} [DecidableEq κ]
    {m : List (κ × α)} {k : κ} {v : α} {p : κ × α}
    (h : p ∈ setEntry m k v) : p = (k, v) ∨ p ∈ m := by
  induction m with
  | nil => simpa [setEntry] using h
  | cons e rest ih =>
    by_cases he : e.1 = k
    · simp [setEntry, he] at h
      rcases h with h | h
      · exact .inl h
      · exact .inr (.tail _ h)
    · simp [setEntry, he] at h
      rcases h with h | h
      · exact .inr (by simp [h])
      · rcases ih h with h' | h'
        · exact .inl h'
        · exact .inr (.tail _ h')

theorem mem_eraseEntry {κ α : Type} [DecidableEq κ]
    {m : List (κ × α)} {k : κ} {p : κ × α}
    (h : p ∈ eraseEntry m k) : p ∈ m :=
  List.mem_of_mem_filter h

theorem keys_setEntry {κ α : Type} [DecidableEq κ]
    {m : List (κ × α)} {k : κ} {v : α} {x : κ}
    (h : x ∈ (setEntry m k v).map Prod.fst) : x = k ∨ x ∈ m.map Prod.fst := by
  rcases List.mem_map.1 h with ⟨p, hp, rfl⟩
  rcases mem_setEntry hp with h' | h'
  · exact .inl (by rw [h'])
  · exact .inr (List.mem_map_of_mem _ h')

theorem nodupKeys_setEntry {κ α : Type} [DecidableEq κ]
    {m : List (κ × α)} (k : κ) (v : α)
    (h : nodupKeys m) : nodupKeys (setEntry m k v) := by
  induction m with
  | nil => simp [setEntry, nodupKeys]
  | cons e rest ih =>
    rw [nodupKeys, List.map_cons, List.nodup_cons] at h
    by_cases he : e.1 = k
    · rw [nodupKeys]
      simp only [setEntry, he, if_pos]
      simp only [List.map_cons, List.nodup_cons]
      exact ⟨by rw [← he]; exact h.1, h.2⟩
    · rw [nodupKeys]
      simp only [setEntry, he, if_neg, not_false_iff]
      simp only [List.map_cons, List.nodup_cons]
      refine ⟨fun hc => ?_, ih h.2⟩
      rcases keys_setEntry hc with h' | h'
      · exact he h'
      · exact h.1 h'

theorem countKey_eq_zero_of_not_mem {κ α : Type} [DecidableEq κ]
    {m : List (κ × α)} {k : κ} (h : k ∉ m.map Prod.fst) : countKey m k = 0 := by
  induction m with
  | nil => simp [countKey]
  | cons e rest ih =>
    simp only [List.map_cons, List.mem_cons, not_or] at h
    have he : ¬ e.1 = k := fun hc => h.1 hc.symm
    simp only [countKey, List.filter_cons, decide_eq_true_eq, he, if_neg, not_false_iff]
    simpa [countKey] using ih h.2

theorem countKey_setEntry_self {κ α : Type} [DecidableEq κ]
    {m : List (κ × α)} (k : κ) (v : α)
    (h : nodupKeys m) : countKey (setEntry m k v) k = 1 := by
  induction m with
  | nil => simp [setEntry, countKey]
  | cons e rest ih =>
    rw [nodupKeys, List.map_cons, List.nodup_cons] at h
    by_cases he : e.1 = k
    · simp only [setEntry, he, if_pos]
      have hz : countKey rest k = 0 :=
        countKey_eq_zero_of_not_mem (by rw [← he]; exact h.1)
      simp only [countKey, List.filter_cons, decide_eq_true_eq, if_pos rfl]
      simpa [countKey] using hz
    · simp only [setEntry, he, if_neg, not_false_iff]
      simp only [countKey, List.filter_cons, decide_eq_true_eq, he, if_neg, not_false_iff]
      simpa [countKey] using ih h.2

/-! ### Sorting and concatenation lemmas -/

theorem insertChunk_perm (c : Nat × Bytes) (l : List (Nat × Bytes)) :
    (insertChunk c l).Perm (c :: l) := by
  induction l with
  | nil => simp [insertChunk]
  | cons d rest ih =>
    by_cases h : c.1 ≤ d.1
    · simp [insertChunk, h]
    · simp only [insertChunk, h, if_neg, not_false_iff]
      exact (List.Perm.cons d ih).trans (List.Perm.swap c d rest)

theorem sortChunks_perm (l : List (Nat × Bytes)) : (sortChunks l).Perm l := by
  induction l with
  | nil => simp [sortChunks]
  | cons c rest ih =>
    exact (insertChunk_perm c (sortChunks rest)).trans (ih.cons c)

theorem combineResult_length (dir : List (Nat × Bytes)) :
    (combineResult dir).length = (dir.map (fun c => c.2.length)).sum := by
  have hperm : ((sortChunks dir).map Prod.snd).Perm (dir.map Prod.snd) :=
    (sortChunks_perm dir).map Prod.snd
  have hperm2 : (((sortChunks dir).map Prod.snd).map List.length).Perm
      ((dir.map Prod.snd).map List.length) := hperm.map List.length
  rw [combineResult, List.length_flatten, hperm2.sum_eq, List.map_map]
  rfl

/-! ### Structural lemmas about the embedded operations -/

theorem combineChunks_ok_struct {st : SysState} {uid : String} {up : UploadRec}
    {dir : List (Nat × Bytes)}
    (hup : st.db.find? (fun u => decide (u.file_name = uid)) = some up)
    (hdir : getEntry st.fs.tempDirs uid = some dir) :
    combineChunks st uid =
      .ok { db := updateUrl st.db uid ("/uploads/" ++ (up.file_name ++ "." ++ up.file_extension)),
            fs := { tempDirs := eraseEntry st.fs.tempDirs uid,
                    uploadFiles := setEntry st.fs.uploadFiles
                      (up.file_name ++ "." ++ up.file_extension) (combineResult dir) } } := by
  simp only [combineChunks, hup, hdir]

theorem combineChunks_ok_cases {st st' : SysState} {uid : String}
    (hok : combineChunks st uid = .ok st') :
    ∃ up dir, st.db.find? (fun u => decide (u.file_name = uid)) = some up ∧
      getEntry st.fs.tempDirs uid = some dir ∧
      st' = { db := updateUrl st.db uid ("/uploads/" ++ (up.file_name ++ "." ++ up.file_extension)),
              fs := { tempDirs := eraseEntry st.fs.tempDirs uid,
                      uploadFiles := setEntry st.fs.uploadFiles
                        (up.file_name ++ "." ++ up.file_extension) (combineResult dir) } } := by
  rcases hf : st.db.find? (fun u => decide (u.file_name = uid)) with _ | up
  · simp only [combineChunks, hf] at hok
    exact Except.noConfusion hok
  · rcases hg : getEntry st.fs.tempDirs uid with _ | dir
    · simp only [combineChunks, hf, hg] at hok
      exact Except.noConfusion hok
    · simp only [combineChunks, hf, hg, Except.ok.injEq] at hok
      exact ⟨up, dir, hf, rfl, hok.symm⟩

theorem combineChunks_error_cases {st : SysState} {uid : String} {e : UploadError}
    (herr : combineChunks st uid = .error e) :
    e = UploadError.recordNotFound ∨ e = UploadError.ioError := by
  rcases hf : st.db.find? (fun u => decide (u.file_name = uid)) with _ | up
  · simp only [combineChunks, hf, Except.error.injEq] at herr
    exact .inl herr.symm
  · rcases hg : getEntry st.fs.tempDirs uid with _ | dir
    · simp only [combineChunks, hf, hg, Except.error.injEq] at herr
      exact .inr herr.symm
    · simp only [combineChunks, hf, hg] at herr
      exact Except.noConfusion herr

theorem processChunk_ok_cases {st st' : SysState} {id : String} {offset len : Nat} {body : Bytes}
    (hok : processChunkUploads st id offset len body = .ok st') :
    ∃ up dir, st.db.find? (fun u => decide (u.file_path = id)) = some up ∧
      getEntry st.fs.tempDirs up.file_name = some dir ∧
      ((len ≤ offset + body.length ∧
          combineChunks
            { st with fs := { st.fs with
                tempDirs := setEntry st.fs.tempDirs up.file_name (setEntry dir offset body) } }
            up.file_name = .ok st') ∨
        (offset + body.length < len ∧
          st' = { st with fs := { st.fs with
              tempDirs := setEntry st.fs.tempDirs up.file_name (setEntry dir offset body) } })) := by
  rcases hf : st.db.find? (fun u => decide (u.file_path = id)) with _ | up
  · simp only [processChunkUploads, hf] at hok
    exact Except.noConfusion hok
  · rcases hg : getEntry st.fs.tempDirs up.file_name with _ | dir
    · simp only [processChunkUploads, hf, hg] at hok
      exact Except.noConfusion hok
    · by_cases hc : len ≤ offset + body.length
      · refine ⟨up, dir, hf, hg, .inl ⟨hc, ?_⟩⟩
        simpa only [processChunkUploads, hf, hg, if_pos hc] using hok
      · refine ⟨up, dir, hf, hg, .inr ⟨Nat.lt_of_not_le fun h => hc h, ?_⟩⟩
        simp only [processChunkUploads, hf, hg, if_neg hc, Except.ok.injEq] at hok
        exact hok.symm

theorem processChunk_error_cases {st : SysState} {id : String} {offset len : Nat}
    {body : Bytes} {e : UploadError}
    (herr : processChunkUploads st id offset len body = .error e) :
    e = UploadError.recordNotFound ∨ e = UploadError.dirMissing ∨ e = UploadError.ioError := by
  rcases hf : st.db.find? (fun u => decide (u.file_path = id)) with _ | up
  · simp only [processChunkUploads, hf, Except.error.injEq] at herr
    exact .inl herr.symm
  · rcases hg : getEntry st.fs.tempDirs up.file_name with _ | dir
    · simp only [processChunkUploads, hf, hg, Except.error.injEq] at herr
      exact .inr (.inl herr.symm)
    · by_cases hc : len ≤ offset + body.length
      · simp only [processChunkUploads, hf, hg, if_pos hc] at herr
        rcases combineChunks_error_cases herr with h | h
        · exact .inl h
        · exact .inr (.inr h)
      · simp only [processChunkUploads, hf, hg, if_neg hc] at herr
        exact Except.noConfusion herr

theorem ingest_step_no_trigger {st : SysState} {id : String} {offset len : Nat} {body : Bytes}
    {up : UploadRec} {dir : List (Nat × Bytes)}
    (hup : st.db.find? (fun u => decide (u.file_path = id)) = some up)
    (hdir : getEntry st.fs.tempDirs up.file_name = some dir)
    (hno : offset + body.length < len) :
    processChunkUploads st id offset len body =
      .ok { st with fs := { st.fs with
              tempDirs := setEntry st.fs.tempDirs up.file_name (setEntry dir offset body) } } := by
  simp only [processChunkUploads, hup, hdir, if_neg (Nat.not_le.mpr hno)]

theorem ingest_step_trigger {st : SysState} {id : String} {offset len : Nat} {body : Bytes}
    {up : UploadRec} {dir : List (Nat × Bytes)}
    (hup : st.db.find? (fun u => decide (u.file_path = id)) = some up)
    (hfn : st.db.find? (fun u => decide (u.file_name = up.file_name)) = some up)
    (hdir : getEntry st.fs.tempDirs up.file_name = some dir)
    (htrig : len ≤ offset + body.length) :
    processChunkUploads st id offset len body =
      .ok { db := updateUrl st.db up.file_name
              ("/uploads/" ++ (up.file_name ++ "." ++ up.file_extension)),
            fs := { tempDirs :=
                      eraseEntry
                        (setEntry st.fs.tempDirs up.file_name (setEntry dir offset body))
                        up.file_name,
                    uploadFiles := setEntry st.fs.uploadFiles
                      (up.file_name ++ "." ++ up.file_extension)
                      (combineResult (setEntry dir offset body)) } } := by
  have hmid := @combineChunks_ok_struct
    { st with fs := { st.fs with
        tempDirs := setEntry st.fs.tempDirs up.file_name (setEntry dir offset body) } }
    up.file_name up (setEntry dir offset body)
    hfn (getEntry_setEntry_self _ _ _)
  simp only [processChunkUploads, hup, hdir, if_pos htrig]
  exact hmid

/-! ### Retry-loop and hex-name lemmas -/

theorem startChunkLoop_exhausted (randoms : Nat → List (Fin 256))
    (mkdir : List Char → MkdirOutcome) :
    ∀ fuel i, (∀ k, i ≤ k → k < i + fuel → mkdir (randomBytesHex (randoms k)) = .eexist) →
      startChunkLoop randoms mkdir i fuel = .resourceExhausted := by
  intro fuel
  induction fuel with
  | zero => intro i _; rfl
  | succ n ih =>
    intro i h
    have hi : mkdir (randomBytesHex (randoms i)) = .eexist := h i le_rfl (by omega)
    simp only [startChunkLoop, hi]
    exact ih (i + 1) (fun k hk1 hk2 => h k (by omega) (by omega))

theorem startChunkLoop_success (randoms : Nat → List (Fin 256))
    (mkdir : List Char → MkdirOutcome) :
    ∀ fuel i j, i ≤ j → j < i + fuel →
      (∀ k, i ≤ k → k < j → mkdir (randomBytesHex (randoms k)) = .eexist) →
      mkdir (randomBytesHex (randoms j)) = .ok →
      startChunkLoop randoms mkdir i fuel = .success (randomBytesHex (randoms j)) := by
  intro fuel
  induction fuel with
  | zero => intro i j h1 h2 _ _; omega
  | succ n ih =>
    intro i j hij hlt hpre hok
    rcases Nat.eq_or_lt_of_le hij with rfl | hgt
    · simp only [startChunkLoop, hok]
    · have hi := hpre i le_rfl hgt
      simp only [startChunkLoop, hi]
      exact ih (i + 1) j (by omega) (by omega) (fun k hk1 hk2 => hpre k (by omega) hk2) hok

theorem startChunkLoop_propagated (randoms : Nat → List (Fin 256))
    (mkdir : List Char → MkdirOutcome) :
    ∀ fuel i j code, i ≤ j → j < i + fuel →
      (∀ k, i ≤ k → k < j → mkdir (randomBytesHex (randoms k)) = .eexist) →
      mkdir (randomBytesHex (randoms j)) = .otherErr code →
      startChunkLoop randoms mkdir i fuel = .propagated code := by
  intro fuel
  induction fuel with
  | zero => intro i j _ h1 h2 _ _; omega
  | succ n ih =>
    intro i j code hij hlt hpre herr
    rcases Nat.eq_or_lt_of_le hij with rfl | hgt
    · simp only [startChunkLoop, herr]
    · have hi := hpre i le_rfl hgt
      simp only [startChunkLoop, hi]
      exact ih (i + 1) j code (by omega) (by omega) (fun k hk1 hk2 => hpre k (by omega) hk2) herr

theorem startChunkLoop_success_name (randoms : Nat → List (Fin 256))
    (mkdir : List Char → MkdirOutcome) :
    ∀ fuel i name, startChunkLoop randoms mkdir i fuel = .success name →
      ∃ j, name = randomBytesHex (randoms j) := by
  intro fuel
  induction fuel with
  | zero => intro i name h; exact StartResult.noConfusion h
  | succ n ih =>
    intro i name h
    cases hm : mkdir (randomBytesHex (randoms i)) with
    | ok =>
      simp only [startChunkLoop, hm, StartResult.success.injEq] at h
      exact ⟨i, h.symm⟩
    | eexist =>
      simp only [startChunkLoop, hm] at h
      exact ih (i + 1) name h
    | otherErr code =>
      simp only [startChunkLoop, hm] at h
      exact StartResult.noConfusion h

theorem randomBytesHex_length (bs : List (Fin 256)) :
    (randomBytesHex bs).length = 2 * bs.length := by
  induction bs with
  | nil => rfl
  | cons b rest ih =>
    simp only [randomBytesHex, List.map_cons, List.flatten_cons, List.length_append] at ih ⊢
    simp only [byteToHex, List.length_cons, List.length_nil, List.length_map] at ih ⊢
    omega

theorem hexDigit_mem (n : Nat) : hexDigit n ∈ hexChars := by
  rw [hexDigit]
  rcases Nat.lt_or_ge n hexChars.length with h | h
  · rw [List.getD_eq_getElem hexChars '0' h]
    exact hexChars.getElem_mem h
  · rw [List.getD_eq_default hexChars '0' h]
    decide

theorem randomBytesHex_mem {bs : List (Fin 256)} {c : Char}
    (h : c ∈ randomBytesHex bs) : c ∈ hexChars := by
  induction bs with
  | nil => simp [randomBytesHex] at h
  | cons b rest ih =>
    simp only [randomBytesHex, List.map_cons, List.flatten_cons, List.mem_append] at h
    rcases h with h | h
    · simp only [byteToHex, List.mem_cons, List.not_mem_nil, or_false] at h
      rcases h with rfl | rfl
      · exact hexDigit_mem _
      · exact hexDigit_mem _
    · exact ih h

theorem hexChars_no_separators : ∀ c ∈ hexChars, c ≠ '/' ∧ c ≠ '.' ∧ c ≠ '\\' := by
  decide

theorem updateUrl_mem {db : List UploadRec} {up : UploadRec} {fname url : String}
    (h : up ∈ db) (hn : up.file_name = fname) :
    { up with file_url := url } ∈ updateUrl db fname url := by
  rw [updateUrl]
  exact List.mem_map.2 ⟨up, h, by simp [hn]⟩

/-! ### Claim theorems -/

/-- C7 (confirmed): session creation draws a random identifier and attempts
to reserve a uniquely-named staging directory at most 5 times; it returns
the first identifier whose directory creation succeeds, fails (rather than
looping forever) if all 5 attempts collide with an already-existing
directory, and propagates any error other than directory-already-exists
immediately. -/
theorem startChunkProcess_bounded_attempts
    (randoms : Nat → List (Fin 256)) (mkdir : List Char → MkdirOutcome) :
    ((∀ i, i < maxAttempts → mkdir (randomBytesHex (randoms i)) = .eexist) →
      startChunkProcess randoms mkdir = .resourceExhausted) ∧
    (∀ j, j < maxAttempts →
      (∀ i, i < j → mkdir (randomBytesHex (randoms i)) = .eexist) →
      mkdir (randomBytesHex (randoms j)) = .ok →
      startChunkProcess randoms mkdir = .success (randomBytesHex (randoms j))) ∧
    (∀ j code, j < maxAttempts →
      (∀ i, i < j → mkdir (randomBytesHex (randoms i)) = .eexist) →
      mkdir (randomBytesHex (randoms j)) = .otherErr code →
      startChunkProcess randoms mkdir = .propagated code) := by
  refine ⟨fun h => ?_, fun j hj hpre hok => ?_, fun j code hj hpre herr => ?_⟩
  · exact startChunkLoop_exhausted randoms mkdir maxAttempts 0
      (fun k _ hk2 => h k (by omega))
  · exact startChunkLoop_success randoms mkdir maxAttempts 0 j (by omega) (by omega)
      (fun k _ hk2 => hpre k hk2) hok
  · exact startChunkLoop_propagated randoms mkdir maxAttempts 0 j code (by omega) (by omega)
      (fun k _ hk2 => hpre k hk2) herr

/-- Witness for C7 at concrete inputs: all five draws collide, the third
draw succeeds after two collisions, and a non-collision error on the second
draw propagates. -/
theorem startChunkProcess_bounded_attempts_witness :
    startChunkProcess randomsSeq mkdirAllCollide = .resourceExhausted ∧
    startChunkProcess randomsSeq mkdirOkAtThird = .success (randomBytesHex (randomsSeq 2)) ∧
    startChunkProcess randomsSeq mkdirErrAtSecond = .propagated 13 :=
  ⟨(startChunkProcess_bounded_attempts randomsSeq mkdirAllCollide).1 (fun _ _ => rfl),
   (startChunkProcess_bounded_attempts randomsSeq mkdirOkAtThird).2.1 2 (by decide)
     (by decide) (by decide),
   (startChunkProcess_bounded_attempts randomsSeq mkdirErrAtSecond).2.2 1 13 (by decide)
     (by decide) (by decide)⟩

/-- C9 counterexample: an ingest whose 5-byte chunk at offset 5 arrives as
the raw request body (no multipart file) is answered with watermark 5, not
the claimed offset + length = 10. -/
theorem raw_body_response_offset_cex :
    storeChunkResponseOffset 5 none = 5 ∧ (5 : Nat) ≠ 5 + 5 := by
  decide

/-- C9 (amended): the returned watermark is offset plus the multipart file
buffer's length when the chunk arrived as a multipart file, and offset
plus zero (the bare offset) when the chunk arrived as the raw request
body; it equals offset + length only in the first transport. -/
theorem chunk_response_offset_formula (offset : Nat) (b : Bytes) :
    storeChunkResponseOffset offset (some b) = offset + b.length ∧
    storeChunkResponseOffset offset none = offset :=
  ⟨rfl, rfl⟩

/-- C10 (confirmed): every storage name produced by session creation is the
hex encoding of the 10 drawn random bytes: exactly 20 characters, all from
the lowercase hex alphabet, hence no path separators, no dots, and no
client-influenced content (the generator takes no client metadata). -/
theorem storage_name_twenty_lowercase_hex
    (randoms : Nat → List (Fin 256)) (mkdir : List Char → MkdirOutcome) (name : List Char)
    (hlen : ∀ i, (randoms i).length = 10)
    (hsucc : startChunkProcess randoms mkdir = .success name) :
    name.length = 20 ∧ ∀ c ∈ name, c ∈ hexChars ∧ c ≠ '/' ∧ c ≠ '.' ∧ c ≠ '\\' := by
  rcases startChunkLoop_success_name randoms mkdir maxAttempts 0 name hsucc with ⟨j, rfl⟩
  constructor
  · rw [randomBytesHex_length, hlen j]
  · intro c hc
    have hmem := randomBytesHex_mem hc
    exact ⟨hmem, hexChars_no_separators c hmem⟩

/-- Witness for C10: a concrete creation run whose first directory
reservation succeeds. -/
theorem storage_name_twenty_lowercase_hex_witness :
    (randomBytesHex (randomsSeq 0)).length = 20 ∧
    ∀ c ∈ randomBytesHex (randomsSeq 0), c ∈ hexChars ∧ c ≠ '/' ∧ c ≠ '.' ∧ c ≠ '\\' :=
  storage_name_twenty_lowercase_hex randomsSeq mkdirAllOk
    (randomBytesHex (randomsSeq 0)) (fun _ => rfl) rfl

/-- C1 counterexample: two ingest calls that both satisfy the completion
condition (`upload-length` 10; 5 + 5 ≥ 10 and 0 + 10 ≥ 10). The first
invokes reassembly; the second does not "return success for its own chunk
write" as claimed — it fails with a missing-staging-directory error,
because reassembly deleted the staging directory. -/
theorem double_completion_loser_errors_cex :
    processChunkUploads freshState "aabb.bin" 5 10 worldBytes = .ok worldOnlyState ∧
    processChunkUploads worldOnlyState "aabb.bin" 0 10 (helloBytes ++ worldBytes) =
      .error UploadError.dirMissing :=
  ⟨rfl, rfl⟩

/-- C1 (amended): there is no session status and no compare-and-swap guard;
sequentially, the first completion-satisfying ingest invokes reassembly,
which deletes the staging directory, and every later ingest resolving to
the same storage name fails with a missing-directory error instead of
returning success. (Nothing in the code prevents two reassembly
invocations under truly concurrent delivery; this theorem captures the
sequential behaviour.) -/
theorem finalize_consumes_staging_second_call_errors
    (st st' : SysState) (id : String) (offset len : Nat) (body : Bytes) (up : UploadRec)
    (hup : st.db.find? (fun u => decide (u.file_path = id)) = some up)
    (htrig : len ≤ offset + body.length)
    (hok : processChunkUploads st id offset len body = .ok st')
    (id2 : String) (offset2 len2 : Nat) (body2 : Bytes) (up2 : UploadRec)
    (hup2 : st'.db.find? (fun u => decide (u.file_path = id2)) = some up2)
    (hsame : up2.file_name = up.file_name) :
    getEntry st'.fs.tempDirs up.file_name = none ∧
    processChunkUploads st' id2 offset2 len2 body2 = .error UploadError.dirMissing := by
  have hgone : getEntry st'.fs.tempDirs up.file_name = none := by
    rcases processChunk_ok_cases hok with ⟨up', dir, hup', hdir, hbranch⟩
    rw [hup] at hup'
    injection hup' with hupEq
    subst hupEq
    rcases hbranch with ⟨_, hcomb⟩ | ⟨hlt, _⟩
    · rcases combineChunks_ok_cases hcomb with ⟨upc, dirc, _, _, rfl⟩
      exact getEntry_eraseEntry_self _ _
    · exact absurd htrig (Nat.not_le.mpr hlt)
  refine ⟨hgone, ?_⟩
  simp only [processChunkUploads, hup2, hsame, hgone]

/-- Witness for C1's amended statement: the `WORLD`-at-offset-5 trigger on a
fresh session, followed by an attempted `HELLO` at offset 0. -/
theorem finalize_consumes_staging_second_call_errors_witness :
    getEntry worldOnlyState.fs.tempDirs "aabb" = none ∧
    processChunkUploads worldOnlyState "aabb.bin" 0 10 helloBytes =
      .error UploadError.dirMissing :=
  finalize_consumes_staging_second_call_errors freshState worldOnlyState "aabb.bin" 5 10
    worldBytes freshRec rfl (by decide) rfl "aabb.bin" 0 10 helloBytes freshRec rfl rfl

/-- C2 counterexample: chunks `ABCD` at 0 and `EFGH` at 6 against declared
size 10 leave the gap `[4, 6)`; yet both ingests succeed (no
`CoverageError`, no `Failed`), the staged chunks are deleted rather than
preserved, and an 8-byte artifact is created under the retrievable name. -/
theorem gap_session_completes_cex :
    processChunkUploads freshState "aabb.bin" 0 10 abcdBytes = .ok gapState1 ∧
    processChunkUploads gapState1 "aabb.bin" 6 10 efghBytes = .ok gapFinalState ∧
    getEntry gapFinalState.fs.uploadFiles "aabb.bin" = some (abcdBytes ++ efghBytes) ∧
    getEntry gapFinalState.fs.tempDirs "aabb" = none ∧
    (abcdBytes ++ efghBytes).length < 10 :=
  ⟨rfl, rfl, rfl, rfl, by decide⟩

/-- C2 (amended): reassembly performs no coverage verification at all:
whatever chunks are staged — gapped, overlapping, or short — it succeeds,
writes an artifact whose length is the total staged byte count, and
deletes the staging directory. -/
theorem combineChunks_skips_coverage_check
    (st : SysState) (uid : String) (up : UploadRec) (dir : List (Nat × Bytes))
    (hup : st.db.find? (fun u => decide (u.file_name = uid)) = some up)
    (hdir : getEntry st.fs.tempDirs uid = some dir) :
    ∃ st', combineChunks st uid = .ok st' ∧
      getEntry st'.fs.uploadFiles (up.file_name ++ "." ++ up.file_extension) =
        some (combineResult dir) ∧
      (combineResult dir).length = (dir.map (fun c => c.2.length)).sum ∧
      getEntry st'.fs.tempDirs uid = none := by
  refine ⟨_, combineChunks_ok_struct hup hdir, ?_, combineResult_length dir, ?_⟩
  · exact getEntry_setEntry_self _ _ _
  · exact getEntry_eraseEntry_self _ _

/-- Witness for C2's amended statement: reassembling the gapped staging
directory succeeds and erases it. -/
theorem combineChunks_skips_coverage_check_witness :
    ∃ st', combineChunks gapStagedState "aabb" = .ok st' ∧
      getEntry st'.fs.uploadFiles (freshRec.file_name ++ "." ++ freshRec.file_extension) =
        some (combineResult [(0, abcdBytes), (6, efghBytes)]) ∧
      (combineResult [(0, abcdBytes), (6, efghBytes)]).length =
        ([(0, abcdBytes), (6, efghBytes)].map (fun c => c.2.length)).sum ∧
      getEntry st'.fs.tempDirs "aabb" = none :=
  combineChunks_skips_coverage_check gapStagedState "aabb" freshRec
    [(0, abcdBytes), (6, efghBytes)] rfl rfl

/-- C3 counterexample: the spec's own scenario in the delivery order
`WORLD` at offset 5 then `HELLO` at offset 0 (declared size 10). The
completion check `offset + body.length >= length` fires already on the
first chunk, so reassembly runs with only `WORLD` staged: the artifact is
the 5 bytes of `WORLD`, not `HELLOWORLD`, and the second ingest fails
because the staging directory is gone. -/
theorem out_of_order_delivery_truncates_cex :
    processChunkUploads freshState "aabb.bin" 5 10 worldBytes = .ok worldOnlyState ∧
    getEntry worldOnlyState.fs.uploadFiles "aabb.bin" = some worldBytes ∧
    getEntry worldOnlyState.fs.uploadFiles "aabb.bin" ≠ some (helloBytes ++ worldBytes) ∧
    processChunkUploads worldOnlyState "aabb.bin" 0 10 helloBytes =
      .error UploadError.dirMissing :=
  ⟨rfl, rfl, by decide, rfl⟩

/-- C3 (amended): only delivery orders in which no chunk before the last
one reaches the declared size complete correctly: if every earlier chunk
satisfies `offset + length < declaredSize` and the last one reaches it,
every ingest succeeds and the artifact equals the staged chunks
concatenated in ascending offset order (`combineResult` sorts by offset,
independent of delivery order). In the spec's scenario this holds for
`HELLO` at 0 then `WORLD` at 5, yielding `HELLOWORLD` — but not for the
reverse order. -/
theorem ordered_delivery_concatenates_in_offset_order
    (id : String) (len : Nat) (up : UploadRec) (c : Nat × Bytes)
    (hlast : len ≤ c.1 + c.2.length) :
    ∀ (cs : List (Nat × Bytes)) (st : SysState) (dir0 : List (Nat × Bytes)),
      st.db.find? (fun u => decide (u.file_path = id)) = some up →
      st.db.find? (fun u => decide (u.file_name = up.file_name)) = some up →
      getEntry st.fs.tempDirs up.file_name = some dir0 →
      (∀ x ∈ cs, x.1 + x.2.length < len) →
      ∃ st', ingestAll st id len (cs ++ [c]) = .ok st' ∧
        getEntry st'.fs.uploadFiles (up.file_name ++ "." ++ up.file_extension) =
          some (combineResult
            (setEntry (cs.foldl (fun d x => setEntry d x.1 x.2) dir0) c.1 c.2)) := by
  intro cs
  induction cs with
  | nil =>
    intro st dir0 hup hfn hdir _
    refine ⟨{ db := updateUrl st.db up.file_name
                ("/uploads/" ++ (up.file_name ++ "." ++ up.file_extension)),
              fs := { tempDirs :=
                        eraseEntry
                          (setEntry st.fs.tempDirs up.file_name (setEntry dir0 c.1 c.2))
                          up.file_name,
                      uploadFiles := setEntry st.fs.uploadFiles
                        (up.file_name ++ "." ++ up.file_extension)
                        (combineResult (setEntry dir0 c.1 c.2)) } }, ?_, ?_⟩
    · simp only [List.nil_append, ingestAll, ingest_step_trigger hup hfn hdir hlast]
    · simp only [List.foldl_nil]
      exact getEntry_setEntry_self _ _ _
  | cons x rest ih =>
    intro st dir0 hup hfn hdir hsmall
    have hx := hsmall x (List.mem_cons_self x rest)
    have hstep := ingest_step_no_trigger hup hdir hx
    rcases ih { st with fs := { st.fs with
          tempDirs := setEntry st.fs.tempDirs up.file_name (setEntry dir0 x.1 x.2) } }
        (setEntry dir0 x.1 x.2) hup hfn (getEntry_setEntry_self _ _ _)
        (fun y hy => hsmall y (List.mem_cons_of_mem x hy)) with ⟨st', h1, h2⟩
    refine ⟨st', ?_, ?_⟩
    · simp only [List.cons_append, ingestAll, hstep]
      exact h1
    · simpa only [List.foldl_cons] using h2

/-- Witness for C3's amended statement: the in-order scenario `HELLO` at 0
then `WORLD` at 5 with declared size 10 completes with artifact
`HELLOWORLD`. -/
theorem ordered_delivery_concatenates_in_offset_order_witness :
    ∃ st', ingestAll freshState "aabb.bin" 10 ([(0, helloBytes)] ++ [(5, worldBytes)]) = .ok st' ∧
      getEntry st'.fs.uploadFiles (freshRec.file_name ++ "." ++ freshRec.file_extension) =
        some (helloBytes ++ worldBytes) := by
  rcases ordered_delivery_concatenates_in_offset_order "aabb.bin" 10 freshRec
      (5, worldBytes) (by decide) [(0, helloBytes)] freshState [] rfl rfl rfl
      (by decide) with ⟨st', h1, h2⟩
  refine ⟨st', h1, ?_⟩
  rw [h2]
  rfl

/-- C4 counterexample: after reassembly of the gapped session
(declared size 10), an 8-byte artifact — shorter than the declared size —
is durably visible under the final retrievable name `aabb.bin`, the very
name the record's `file_url` points at. Nothing was written to a temporary
path or renamed. -/
theorem truncated_artifact_after_reassembly_cex :
    ingestAll freshState "aabb.bin" 10 [(0, abcdBytes), (6, efghBytes)] = .ok gapFinalState ∧
    gapFinalState.db = [freshRec] ∧
    freshRec.file_url = "/uploads/aabb.bin" ∧
    getEntry gapFinalState.fs.uploadFiles "aabb.bin" = some (abcdBytes ++ efghBytes) ∧
    (abcdBytes ++ efghBytes).length < 10 :=
  ⟨rfl, rfl, rfl, rfl, by decide⟩

/-- C4 (amended): reassembly writes directly to the final retrievable path
(`{storageName}.{extension}` in the upload directory) with no temporary
path and no rename; whenever the staged bytes total less than the declared
size, reassembly still succeeds and an artifact shorter than the declared
size is visible under that path, with the record's `file_url` pointing at
it. -/
theorem short_coverage_truncated_artifact_visible
    (st : SysState) (uid : String) (up : UploadRec) (dir : List (Nat × Bytes))
    (declaredSize : Nat)
    (hup : st.db.find? (fun u => decide (u.file_name = uid)) = some up)
    (hdir : getEntry st.fs.tempDirs uid = some dir)
    (hshort : (dir.map (fun c => c.2.length)).sum < declaredSize) :
    ∃ st' b, combineChunks st uid = .ok st' ∧
      getEntry st'.fs.uploadFiles (up.file_name ++ "." ++ up.file_extension) = some b ∧
      b.length < declaredSize ∧
      { up with file_url := "/uploads/" ++ (up.file_name ++ "." ++ up.file_extension) } ∈
        st'.db := by
  refine ⟨_, combineResult dir, combineChunks_ok_struct hup hdir,
    getEntry_setEntry_self _ _ _, ?_, ?_⟩
  · rw [combineResult_length]
    exact hshort
  · have hmem := List.mem_of_find?_eq_some hup
    have hname : up.file_name = uid := by
      have h := List.find?_some hup
      simpa only [decide_eq_true_eq] using h
    exact updateUrl_mem hmem hname

/-- Witness for C4's amended statement: the gapped staging directory totals
8 bytes against a declared size of 10. -/
theorem short_coverage_truncated_artifact_visible_witness :
    ∃ st' b, combineChunks gapStagedState "aabb" = .ok st' ∧
      getEntry st'.fs.uploadFiles (freshRec.file_name ++ "." ++ freshRec.file_extension) =
        some b ∧
      b.length < 10 ∧
      { freshRec with
          file_url := "/uploads/" ++ (freshRec.file_name ++ "." ++ freshRec.file_extension) } ∈
        st'.db :=
  short_coverage_truncated_artifact_visible gapStagedState "aabb" freshRec
    [(0, abcdBytes), (6, efghBytes)] 10 rfl rfl (by decide)

/-- C5 counterexample: a session that has already been reassembled (its
staging directory is gone, its artifact is in place) receives a further
ingest. The call fails — but with the missing-staging-directory
file-system error, not with `InvalidState`; no status check exists. -/
theorem completed_session_ingest_error_cex :
    processChunkUploads worldOnlyState "aabb.bin" 7 10 abcdBytes =
      .error UploadError.dirMissing ∧
    UploadError.dirMissing ≠ UploadError.invalidState :=
  ⟨rfl, by decide⟩

/-- C5 (amended): the code never checks session status and can never fail
with `InvalidState`; an ingest on an already-reassembled session (whose
staging directory was deleted by reassembly) fails with the
missing-staging-directory error, stages nothing, and does not re-trigger
reassembly. -/
theorem ingest_after_completion_fails_without_invalidState
    (st : SysState) (id : String) (offset len : Nat) (body : Bytes) :
    processChunkUploads st id offset len body ≠ .error UploadError.invalidState ∧
    (∀ up, st.db.find? (fun u => decide (u.file_path = id)) = some up →
      getEntry st.fs.tempDirs up.file_name = none →
      processChunkUploads st id offset len body = .error UploadError.dirMissing) := by
  constructor
  · intro h
    rcases processChunk_error_cases h with h' | h' | h' <;> exact UploadError.noConfusion h'
  · intro up hup hgone
    simp only [processChunkUploads, hup, hgone]

/-- Witness for C5's amended statement: ingesting after the `WORLD`
reassembly. -/
theorem ingest_after_completion_fails_without_invalidState_witness :
    processChunkUploads worldOnlyState "aabb.bin" 7 10 efghBytes ≠
      .error UploadError.invalidState ∧
    processChunkUploads worldOnlyState "aabb.bin" 7 10 efghBytes =
      .error UploadError.dirMissing :=
  ⟨(ingest_after_completion_fails_without_invalidState worldOnlyState "aabb.bin" 7 10
      efghBytes).1,
   (ingest_after_completion_fails_without_invalidState worldOnlyState "aabb.bin" 7 10
      efghBytes).2 freshRec rfl rfl⟩

/-- C6 counterexample: a 5-byte chunk at offset 20 against declared size 10
(offset + length = 25 > 10) is not rejected with `OutOfRange`: the call
succeeds, the chunk is staged, and — because the completion check also
fires — reassembly even runs and publishes the stray bytes as the final
artifact. -/
theorem oversized_chunk_accepted_cex :
    processChunkUploads freshState "aabb.bin" 20 10 xxxxxBytes = .ok overRangeState ∧
    getEntry overRangeState.fs.uploadFiles "aabb.bin" = some xxxxxBytes ∧
    10 < 20 + xxxxxBytes.length :=
  ⟨rfl, rfl, by decide⟩

/-- C6 (amended): no envelope validation exists anywhere on the ingest
path: `processChunkUploads` never returns an `OutOfRange` error for any
state, offset, declared length, or payload. -/
theorem ingest_never_rejects_outOfRange
    (st : SysState) (id : String) (offset len : Nat) (body : Bytes) :
    processChunkUploads st id offset len body ≠ .error UploadError.outOfRange := by
  intro h
  rcases processChunk_error_cases h with h' | h' | h' <;> exact UploadError.noConfusion h'

/-- C8 (confirmed): a chunk write stages the payload under the single file
keyed by its offset, overwriting in place: starting from any well-formed
state (no staging directory lists the same offset twice), after a
successful ingest every staging directory is still well-formed, and — when
the call did not hand off to reassembly — the session's directory holds
exactly one entry for the written offset, whose content is the new
payload. -/
theorem staged_chunk_unique_per_offset
    (st st' : SysState) (id : String) (offset len : Nat) (body : Bytes)
    (hwf : ∀ p ∈ st.fs.tempDirs, nodupKeys p.2)
    (hok : processChunkUploads st id offset len body = .ok st') :
    (∀ p ∈ st'.fs.tempDirs, nodupKeys p.2) ∧
    (∀ up, st.db.find? (fun u => decide (u.file_path = id)) = some up →
      offset + body.length < len →
      ∃ dir', getEntry st'.fs.tempDirs up.file_name = some dir' ∧
        countKey dir' offset = 1 ∧ getEntry dir' offset = some body) := by
  rcases processChunk_ok_cases hok with ⟨up, dir, hup, hdir, hbranch⟩
  have hdirwf : nodupKeys dir := hwf _ (getEntry_mem hdir)
  have hmidwf : ∀ p ∈ setEntry st.fs.tempDirs up.file_name (setEntry dir offset body),
      nodupKeys p.2 := by
    intro p hp
    rcases mem_setEntry hp with rfl | hp'
    · exact nodupKeys_setEntry offset body hdirwf
    · exact hwf p hp'
  rcases hbranch with ⟨htrig, hcomb⟩ | ⟨hlt, rfl⟩
  · rcases combineChunks_ok_cases hcomb with ⟨upc, dirc, hupc, hdirc, rfl⟩
    constructor
    · intro p hp
      exact hmidwf p (mem_eraseEntry hp)
    · intro up2 hup2 hlt2
      exact absurd htrig (Nat.not_le.mpr hlt2)
  · constructor
    · intro p hp
      exact hmidwf p hp
    · intro up2 hup2 hlt2
      rw [hup] at hup2
      injection hup2 with h2
      subst h2
      exact ⟨setEntry dir offset body, getEntry_setEntry_self _ _ _,
        countKey_setEntry_self offset body hdirwf, getEntry_setEntry_self _ _ _⟩

/-- Witness for C8: staging `ABCD` at offset 0 into a fresh session. -/
theorem staged_chunk_unique_per_offset_witness :
    (∀ p ∈ gapState1.fs.tempDirs, nodupKeys p.2) ∧
    ∃ dir', getEntry gapState1.fs.tempDirs "aabb" = some dir' ∧
      countKey dir' 0 = 1 ∧ getEntry dir' 0 = some abcdBytes := by
  have h := staged_chunk_unique_per_offset freshState gapState1 "aabb.bin" 0 10 abcdBytes
    (by decide) rfl
  exact ⟨h.1, h.2 freshRec rfl (by decide)⟩
